import Mathlib

/-!
Verification of the document chunking and retrieval engine
(`document_processor.py` and `vector_store.py`).

The Python code is shallowly embedded: pure string manipulation and the
index state machine are translated to executable Lean definitions; the
floating-point TF-IDF matrix produced by sklearn is abstracted as a record
carrying the fitted texts together with a rational-valued cosine-similarity
function (one entry per document row, as sklearn guarantees); Python
exceptions are modelled with `Except`.
-/

namespace InsuranceDoc

/-! ## Basic Python-style string helpers (on `List Char`) -/

/-- Python `str.isspace` on the characters occurring in this code base
(the cleaner collapses all whitespace runs to a single blank). -/
def pySpace (c : Char) : Bool := c.isWhitespace

/-- `needle` is a prefix of `hay` (character-exact). -/
def prefOf : List Char → List Char → Bool
  | [], _ => true
  | _ :: _, [] => false
  | a :: as, b :: bs => a == b && prefOf as bs

/-- Python `needle in hay` substring test. -/
def hasSegment (needle : List Char) : List Char → Bool
  | [] => prefOf needle []
  | c :: t => prefOf needle (c :: t) || hasSegment needle t

/-- Python `needle in hay` on strings. -/
def strHas (hay needle : String) : Bool := hasSegment needle.data hay.data

/-- Python `str.lower()` (ASCII-faithful, as all inputs here are ASCII). -/
def pyLower (s : String) : String := ⟨s.data.map Char.toLower⟩

/-- Python `str.strip()`: drop leading and trailing whitespace. -/
def pyStrip (l : List Char) : List Char :=
  ((l.dropWhile pySpace).reverse.dropWhile pySpace).reverse

/-- Python `str.strip()` on `String`. -/
def pyStripStr (s : String) : String := ⟨pyStrip s.data⟩

/-- Split at every character satisfying `pySpace`; `acc` is the reversed
current segment.  Empty segments are kept, as in `str.split(sep)`. -/
def splitWsAux (acc : List Char) : List Char → List (List Char)
  | [] => [acc.reverse]
  | c :: rest =>
      if pySpace c then acc.reverse :: splitWsAux [] rest
      else splitWsAux (c :: acc) rest

/-- Python no-argument `str.split()`: split on whitespace, no empty parts. -/
def pySplitWs (s : String) : List String :=
  ((splitWsAux [] s.data).filter fun w => w ≠ []).map fun l => ⟨l⟩

/-- Python `' '.join(l)`. -/
def joinSpace : List String → String
  | [] => ""
  | [x] => x
  | x :: y :: rest => x ++ " " ++ joinSpace (y :: rest)

/-! ## A small backtracking regular-expression engine

Only the constructs used by the Python patterns in the repository are
supported.  `runRE` returns every way the pattern can match a prefix of the
input, as pairs (remaining input, captured groups), ordered by the Python
`re` backtracking preference (greedy repetitions try longer matches first,
alternatives left to right); `reSearch` scans start positions left to right
and takes the first preferred match, exactly like `re.search`. -/

inductive RE where
  /-- single character from a class -/
  | cls (p : Char → Bool)
  /-- literal word, case-insensitively when `ci` is true -/
  | lit (ci : Bool) (w : List Char)
  | seq (a b : RE)
  | alt (a b : RE)
  /-- greedy `p*` over a character class -/
  | starCls (p : Char → Bool)
  /-- greedy `p+` over a character class -/
  | plusCls (p : Char → Bool)
  /-- greedy `p?` over a character class -/
  | optCls (p : Char → Bool)
  /-- lazy `p*?` over a character class -/
  | lazyStarCls (p : Char → Bool)
  /-- greedy `r*` over a sub-pattern -/
  | starRE (r : RE)
  /-- capture group `n` -/
  | group (n : Nat) (r : RE)

/-- Case-insensitive character equality used for `re.IGNORECASE` literals. -/
def ciEq (a b : Char) : Bool := a.toLower == b.toLower

def litMatch (ci : Bool) : List Char → List Char → Option (List Char)
  | [], s => some s
  | _ :: _, [] => none
  | w :: ws, c :: cs =>
      if (if ci then ciEq w c else w == c) then litMatch ci ws cs else none

/-- Candidate continuations after consuming `j` characters, longest first
(for greedy repetition over a character class). -/
def greedyCands (p : Char → Bool) (s : List Char) (lo : Nat) :
    List (List Char × List (Nat × List Char)) :=
  let run := (s.takeWhile p).length
  (List.range (run + 1)).reverse.filterMap fun j =>
    if lo ≤ j then some (s.drop j, []) else none

/-- Shortest-first candidates (for lazy repetition over a character class). -/
def lazyCands (p : Char → Bool) (s : List Char) :
    List (List Char × List (Nat × List Char)) :=
  let run := (s.takeWhile p).length
  (List.range (run + 1)).map fun j => (s.drop j, [])

/-- One layer of the matcher: `next` runs starred sub-patterns with one
unit of fuel less.  Structural recursion on the pattern keeps every case
kernel-reducible. -/
def runStep (next : RE → List Char → List (List Char × List (Nat × List Char))) :
    RE → List Char → List (List Char × List (Nat × List Char))
  | .cls _, [] => []
  | .cls p, c :: rest => if p c then [(rest, [])] else []
  | .lit ci w, s =>
      match litMatch ci w s with
      | some rest => [(rest, [])]
      | none => []
  | .seq a b, s =>
      (runStep next a s).flatMap fun pr =>
        (runStep next b pr.1).map fun qr => (qr.1, pr.2 ++ qr.2)
  | .alt a b, s => runStep next a s ++ runStep next b s
  | .starCls p, s => greedyCands p s 0
  | .plusCls p, s => greedyCands p s 1
  | .optCls p, s =>
      match s with
      | [] => [([], [])]
      | c :: rest => if p c then [(rest, []), (c :: rest, [])] else [(c :: rest, [])]
  | .lazyStarCls p, s => lazyCands p s
  | .starRE r, s =>
      ((next r s).flatMap fun pr =>
        if pr.1.length < s.length then
          (next (.starRE r) pr.1).map fun qr => (qr.1, pr.2 ++ qr.2)
        else []) ++ [(s, [])]
  | .group n r, s =>
      (runStep next r s).map fun pr =>
        (pr.1, (n, s.take (s.length - pr.1.length)) :: pr.2)

/-- All matches of `r` against a prefix of `s`, in backtracking preference
order: pairs (remaining input, captured groups).  `fuel` bounds the number
of iterations a `starRE` may perform; callers pass at least `s.length + 1`,
which is enough because every starred sub-pattern used here consumes at
least one character per iteration (out of fuel, a star matches emptily). -/
def runRE : Nat → RE → List Char → List (List Char × List (Nat × List Char))
  | 0 => runStep fun _ s => [(s, [])]
  | fuel + 1 => runStep (runRE fuel)

/-- The preferred match of `r` at the very start of `s`
(like `re.match` without anchoring the end). -/
def reMatchHere (r : RE) (s : List Char) : Option (List Char × List (Nat × List Char)) :=
  (runRE (s.length + 1) r s).head?

/-- `re.search`: first start position (left to right) allowing a match,
then the preferred match there.  Returns the captured groups. -/
def reSearch (r : RE) : List Char → Option (List (Nat × List Char))
  | [] => (reMatchHere r []).map Prod.snd
  | c :: rest =>
      match reMatchHere r (c :: rest) with
      | some m => some m.2
      | none => reSearch r rest

/-- `re.search(...) is not None`. -/
def reFound (r : RE) (s : List Char) : Bool := (reSearch r s).isSome

/-- `re.match(pattern + chr-dollar)`-style full anchored match: a match at
position 0 consuming the whole input. -/
def reMatchFull (r : RE) (s : List Char) : Bool :=
  (runRE (s.length + 1) r s).any fun pr => pr.1.isEmpty

/-- Group `n` of a match result, `''` when absent. -/
def groupStr (caps : List (Nat × List Char)) (n : Nat) : String :=
  match caps.find? (fun pr => pr.1 == n) with
  | some pr => ⟨pr.2⟩
  | none => ""

/-! ## Concrete regular expressions from `vector_store.py` -/

def isDigitC (c : Char) : Bool := c.isDigit

def dashOrSpace (c : Char) : Bool := c == '-' || pySpace c

/-- The class `[M|F|m|f]` under `re.IGNORECASE`: the four letters plus the
literal bar that the (buggy-looking but faithful) character class contains. -/
def mfBarClass (c : Char) : Bool :=
  c == 'M' || c == 'F' || c == 'm' || c == 'f' || c == '|'

/-- `(\d+)[M|F|m|f]?[-\s]?(?:year|yr)` with `re.IGNORECASE`
(`vector_store.py` line 140).  Note that `year`/`yr` is mandatory. -/
def agePattern : RE :=
  .seq (.group 1 (.plusCls isDigitC))
    (.seq (.optCls mfBarClass)
      (.seq (.optCls dashOrSpace)
        (.alt (.lit true ['y','e','a','r']) (.lit true ['y','r']))))

/-- `(\d+)[-\s]?(?:month|year|day)` with `re.IGNORECASE`
(`vector_store.py` line 157). -/
def durationPattern : RE :=
  .seq (.group 1 (.plusCls isDigitC))
    (.seq (.optCls dashOrSpace)
      (.alt (.lit true ['m','o','n','t','h'])
        (.alt (.lit true ['y','e','a','r']) (.lit true ['d','a','y']))))

/-- `^uin[\-\s]*[a-z0-9]+\s*$` (`vector_store.py` line 276), applied with
`re.match` to the lower-cased stripped text, so the whole input must be
consumed (the input is stripped, hence has no trailing newline). -/
def uinPattern : RE :=
  .seq (.lit false ['u','i','n'])
    (.seq (.starCls dashOrSpace)
      (.seq (.plusCls fun c => c.isLower || c.isDigit)
        (.starCls pySpace)))

/-- `\d+\.\d+|\d+\s+[a-z].*?(surgery|procedure|treatment|removal|repair)`
(`vector_store.py` line 294), applied to the lower-cased text; `.` does not
match a newline. -/
def medicalCodesPattern : RE :=
  .alt
    (.seq (.plusCls isDigitC) (.seq (.cls fun c => c == '.') (.plusCls isDigitC)))
    (.seq (.plusCls isDigitC)
      (.seq (.plusCls pySpace)
        (.seq (.cls Char.isLower)
          (.seq (.lazyStarCls fun c => c != '\n')
            (.group 1 (.alt (.lit false ['s','u','r','g','e','r','y'])
              (.alt (.lit false ['p','r','o','c','e','d','u','r','e'])
                (.alt (.lit false ['t','r','e','a','t','m','e','n','t'])
                  (.alt (.lit false ['r','e','m','o','v','a','l'])
                    (.lit false ['r','e','p','a','i','r']))))))))))

/-! ## `vector_store.py`: state and operations -/

/-- An entry of `self.documents`: a chunk dictionary with its text and the
remaining metadata key/value pairs. -/
structure VDoc where
  text : String
  meta : List (String × String)
deriving DecidableEq

/-- Abstraction of the fitted sklearn TF-IDF matrix
`self.vectors = self.vectorizer.fit_transform(texts)`.  It records the texts
it was fitted on (one matrix row per text, as sklearn guarantees) and, for
each query string, the row `cosine_similarity(transform([q]), vectors)[0]`
of rational cosine-similarity scores, one per document row.  The
floating-point arithmetic inside sklearn is abstracted: every theorem below
holds for an arbitrary such similarity function. -/
structure TMatrix where
  texts : List String
  simOf : String → List ℚ
  simOf_len : ∀ q, (simOf q).length = texts.length

/-- Python exceptions that the embedded code can raise. -/
inductive PyErr where
  | attributeError
  | indexError
  | osError
deriving DecidableEq

/-- The mutable state of a `VectorStore` instance: `self.documents`,
`self.vectors` (`None` before any successful fit) and `self.is_fitted`.
The `self.vectorizer` attribute always holds a `TfidfVectorizer` instance
(hence is always truthy), so it needs no state component. -/
structure VState where
  documents : List VDoc
  vectors : Option TMatrix
  isFitted : Bool

/-- The state after `__init__` when no persisted files exist
(`_load_vectors` finds nothing and starts fresh, lines 240-244). -/
def empty_vstate : VState := ⟨[], none, false⟩

/-- The literal boilerplate denylist (`vector_store.py` lines 263-268). -/
def pureContactPatterns : List String :=
  ["bajaj allianz house, airport road, yerawada, pune",
   "www.bajajallianz.com",
   "bagichelp@bajajallianz.co.in",
   "for more details, log on to:"]

/-- The domain keyword allowlist (`vector_store.py` lines 280-289). -/
def relevantKeywords : List String :=
  ["clause", "section", "coverage", "covered", "excluded", "waiting period",
   "sum insured", "premium", "deductible", "co-pay", "treatment", "surgery",
   "hospitalization", "medical", "claim", "benefit", "condition", "terms",
   "policy", "insured", "eligible", "reimbursement", "expenses", "limit",
   "pre-existing", "exclusion", "inclusion", "cashless", "network hospital",
   "procedure", "operation", "disease", "illness", "injury", "emergency",
   "ambulance", "consultation", "diagnostic", "therapy", "medicine",
   "rupees", "₹", "amount", "cost", "fee", "charge", "payable"]

/-- `VectorStore._is_relevant_content` (lines 252-300), translated
clause by clause. -/
def is_relevant_content (text : String) : Bool :=
  let textLower := pyLower text
  if (pyStripStr text).length < 50 then false
  else
    let isPureContact :=
      (pureContactPatterns.any fun p => strHas textLower p) &&
        (pyStripStr text).length < 200
    if isPureContact then false
    else if reMatchFull uinPattern (pyStripStr textLower).data then false
    else
      let hasRelevantContent := relevantKeywords.any fun kw => strHas textLower kw
      let hasMedicalCodes := reFound medicalCodesPattern textLower.data
      let hasSubstantialText :=
        ((pySplitWs text).filter fun w => w.length > 2).length > 5
      hasRelevantContent || hasMedicalCodes ||
        (hasSubstantialText && (pyStripStr text).length > 100)

/-- `VectorStore._parse_structured_query` (lines 131-167).  The final
`list(set(terms))` is modelled as first-occurrence deduplication; CPython's
set iteration order is hash-dependent, and every property proved below is
insensitive to the order of this list. -/
def parse_structured_query (query : String) : List String :=
  let ageTerms := if reFound agePattern query.data then ["age"] else []
  let medicalTerms :=
    (["surgery", "operation", "treatment", "procedure", "therapy"].filter
      fun t => strHas (pyLower query) (pyLower t))
  let bodyParts :=
    (["knee", "hip", "heart", "eye", "spine", "shoulder", "ankle"].filter
      fun p => strHas (pyLower query) (pyLower p))
  let durationTerms :=
    if reFound durationPattern query.data then ["waiting period", "policy duration"]
    else []
  let locationTerms :=
    (["pune", "mumbai", "delhi", "bangalore", "chennai", "hyderabad"].filter
      fun l => strHas (pyLower query) (pyLower l)).map fun _ => "location"
  (ageTerms ++ medicalTerms ++ bodyParts ++ durationTerms ++ locationTerms).eraseDups

/-- `VectorStore.add_documents` (lines 32-71): clear the document list,
filter the incoming chunks, return early when nothing survives (leaving
`self.vectors`, `self.vectorizer` and `self.is_fitted` untouched), else
store the filtered documents and refit.  `ft` stands for
`self.vectorizer.fit_transform`. -/
def add_documents (ft : List String → TMatrix) (st : VState) (docs : List VDoc) :
    VState :=
  let stCleared := { st with documents := [] }
  let filtered := docs.filter fun d => is_relevant_content d.text
  if filtered.isEmpty then stCleared
  else
    { stCleared with
        documents := filtered
        vectors := some (ft (filtered.map fun d => d.text))
        isFitted := true }

/-- `VectorStore._save_vectors` (lines 195-215): the body attempts the disk
writes (outcome given by `diskOk`) inside a `try` whose `except` clause only
logs, so the method returns normally whatever happens on disk. -/
def save_vectors (diskOk : Bool) : Except PyErr Unit :=
  match (if diskOk then Except.ok () else Except.error PyErr.osError :
      Except PyErr Unit) with
  | .ok _ => .ok ()
  | .error _ => .ok ()

/-- `VectorStore.add_documents` including the `_save_vectors` call, as seen
by the caller: `diskOk` tells whether the durable snapshot write would
succeed. -/
def add_documents_io (ft : List String → TMatrix) (st : VState)
    (docs : List VDoc) (diskOk : Bool) : Except PyErr VState :=
  let stCleared := { st with documents := [] }
  let filtered := docs.filter fun d => is_relevant_content d.text
  if filtered.isEmpty then .ok stCleared
  else
    let st2 : VState :=
      { stCleared with
          documents := filtered
          vectors := some (ft (filtered.map fun d => d.text))
          isFitted := true }
    match save_vectors diskOk with
    | .ok _ => .ok st2
    | .error e => .error e

/-- `VectorStore.clear_all_documents` (lines 175-193); file removal happens
inside a `try` whose failures are logged only. -/
def clear_all_documents (st : VState) : VState :=
  { st with documents := [], vectors := none, isFitted := false }

/-- `VectorStore.get_document_count` (lines 169-173). -/
def get_document_count (st : VState) : Nat := st.documents.length

/-! ## `vector_store.py`: search -/

/-- Python's binary `min`, as used by the boost caps. -/
def pyMin (a b : ℚ) : ℚ := if a ≤ b then a else b

/-- The fixed relevance floor `0.01` of line 97. -/
def floorThreshold : ℚ := mkRat 1 100

/-- `expanded_query = f"{query} {' '.join(parsed_terms)}"` (line 84). -/
def expanded_query (query : String) : String :=
  query ++ " " ++ joinSpace (parse_structured_query query)

/-- One concrete linearisation of `numpy.argsort`'s comparison on the
similarity row: ascending by value, equal values ordered by rising index.
numpy's default quicksort leaves the relative order of long runs of equal
keys unspecified, so this is only one admissible tie order (it matches
numpy on runs short enough for its insertion-sort phase, such as the tied
pair in the C6 counterexample); every theorem whose truth depends on the
tie order is therefore stated over an arbitrary ascending argsort
(`IsAscArgsort`) rather than over this concrete choice. -/
def simLex (sims : List ℚ) (i j : Nat) : Prop :=
  sims.getD i 0 < sims.getD j 0 ∨ (sims.getD i 0 = sims.getD j 0 ∧ i ≤ j)

instance (sims : List ℚ) : DecidableRel (simLex sims) := fun i j => by
  unfold simLex; infer_instance

instance (sims : List ℚ) : IsTotal ℕ (simLex sims) := by
  constructor
  intro i j
  unfold simLex
  rcases lt_trichotomy (sims.getD i 0) (sims.getD j 0) with h | h | h
  · exact Or.inl (Or.inl h)
  · rcases Nat.le_total i j with hij | hij
    · exact Or.inl (Or.inr ⟨h, hij⟩)
    · exact Or.inr (Or.inr ⟨h.symm, hij⟩)
  · exact Or.inr (Or.inl h)

instance (sims : List ℚ) : IsTrans ℕ (simLex sims) := by
  constructor
  intro a b c hab hbc
  unfold simLex at *
  rcases hab with h1 | ⟨h1, h1n⟩
  · rcases hbc with h2 | ⟨h2, _⟩
    · exact Or.inl (h1.trans h2)
    · exact Or.inl (h2 ▸ h1)
  · rcases hbc with h2 | ⟨h2, h2n⟩
    · exact Or.inl (h1 ▸ h2)
    · exact Or.inr ⟨h1.trans h2, h1n.trans h2n⟩

/-- `similarities.argsort()` (line 93), as one concrete ascending argsort
(ties by rising index, see `simLex`).  `IsAscArgsort` below captures every
outcome numpy's unspecified tie handling could produce. -/
def argsortAsc (sims : List ℚ) : List Nat :=
  List.insertionSort (simLex sims) (List.range sims.length)

/-- What `numpy.argsort` guarantees about its output, no more: a
permutation of the row indices along which the similarity values are
non-decreasing.  The relative order of rows with equal values is left to
the sort implementation. -/
def IsAscArgsort (sims : List ℚ) (l : List Nat) : Prop :=
  List.Perm l (List.range sims.length) ∧
    l.Pairwise fun i j => sims.getD i 0 ≤ sims.getD j 0

/-- Python slicing `lst[-k:]` for a non-negative `k`: the whole list when
`k == 0`, else the last `k` elements. -/
def pyTailSlice (k : Nat) (l : List α) : List α :=
  if k = 0 then l else l.drop (l.length - k)

/-- A search result: the copied document dictionary, its
`similarity_score` entry, and the matrix row it came from. -/
structure SDoc where
  doc : VDoc
  score : ℚ
  row : Nat
deriving DecidableEq

instance : DecidableEq (Except PyErr (List SDoc)) := fun a b =>
  match a, b with
  | .ok x, .ok y =>
      if h : x = y then isTrue (by rw [h])
      else isFalse fun hh => h (by cases hh; rfl)
  | .error x, .error y =>
      if h : x = y then isTrue (by rw [h])
      else isFalse fun hh => h (by cases hh; rfl)
  | .ok _, .error _ => isFalse fun hh => Except.noConfusion hh
  | .error _, .ok _ => isFalse fun hh => Except.noConfusion hh

/-- The boosting pass of lines 101-115 applied to one candidate document
with pre-boost score `s0`: a capped times-1.3 boost per parsed term occurring
in the lower-cased text, then a capped word-overlap boost. -/
def boost_score (query : String) (parsedTerms : List String) (d : VDoc)
    (s0 : ℚ) : ℚ :=
  let textLower := pyLower d.text
  let s1 := parsedTerms.foldl
    (fun s term =>
      if strHas textLower (pyLower term) then pyMin 1 (s * mkRat 13 10) else s)
    s0
  let queryWords := (pySplitWs (pyLower query)).eraseDups
  let textWords := (pySplitWs textLower).eraseDups
  let common := queryWords.filter fun w => textWords.contains w
  if common.length ≠ 0 then
    pyMin 1 (s1 * pyMin (mkRat 3 2) (1 + (common.length : ℚ) * mkRat 1 10))
  else s1

/-- The result-building loop of lines 95-117: for each candidate row, skip
it unless its raw similarity clears the floor, then copy
`self.documents[idx]` (an `IndexError` when the row is beyond the document
list propagates to the enclosing `except`, which returns `[]`) and attach
the boosted score. -/
def build_results (docs : List VDoc) (sims : List ℚ) (query : String)
    (parsedTerms : List String) : List Nat → Except PyErr (List SDoc)
  | [] => .ok []
  | idx :: rest =>
      if floorThreshold < sims.getD idx 0 then
        match docs[idx]? with
        | none => .error .indexError
        | some d =>
            match build_results docs sims query parsedTerms rest with
            | .error e => .error e
            | .ok rs =>
                .ok (⟨d, boost_score query parsedTerms d (sims.getD idx 0), idx⟩ :: rs)
      else build_results docs sims query parsedTerms rest

/-- The final `results.sort(key=..., reverse=True)` (line 122): a stable
sort descending by score. -/
def scoreGE (a b : SDoc) : Prop := b.score ≤ a.score

instance : DecidableRel scoreGE := fun a b => by unfold scoreGE; infer_instance

/-- `VectorStore.search_documents` (lines 73-129).  The guard of line 77
evaluates `self.vectors.size`: since `self.vectorizer` is always truthy,
a `None` matrix makes that attribute access raise `AttributeError`, and the
guard sits before the `try` block, so the exception escapes.  For a stored
sparse matrix, `size` counts stored entries; every matrix this code ever
stores was produced by a successful fit over a non-empty filtered batch
(a fit over an empty vocabulary raises instead of storing), hence has at
least one row and at least one non-zero entry, so on reachable states the
guard is equivalent to the row count being zero, which is how it is
modelled. -/
def search_documents (st : VState) (query : String) (k : Nat) :
    Except PyErr (List SDoc) :=
  match st.vectors with
  | none => .error .attributeError
  | some m =>
      if m.texts.length = 0 then .ok []
      else
        let parsedTerms := parse_structured_query query
        let sims := m.simOf (query ++ " " ++ joinSpace parsedTerms)
        let topIdx := (pyTailSlice k (argsortAsc sims)).reverse
        match build_results st.documents sims query parsedTerms topIdx with
        | .error _ => .ok []
        | .ok rs => .ok (List.insertionSort scoreGE rs)

/-- `search_documents` as a state transformer: the method body contains no
assignment to any `self` attribute (documents are copied before the score
key is added), so the store state comes back unchanged next to the result. -/
def search_documents_st (st : VState) (query : String) (k : Nat) :
    VState × Except PyErr (List SDoc) :=
  (st, search_documents st query k)

/-- The search pipeline of lines 73-129 with the `argsort` outcome
supplied by `fa`, abstracting the tie order numpy leaves unspecified for
runs of equal similarities.  `search_documents` is this pipeline at the
concrete `argsortAsc` (see `search_documents_eq_arg`); a theorem quantified
over every `fa` satisfying `IsAscArgsort` covers every behaviour the real
library can exhibit. -/
def search_documents_arg (st : VState) (query : String) (k : Nat)
    (fa : List ℚ → List Nat) : Except PyErr (List SDoc) :=
  match st.vectors with
  | none => .error .attributeError
  | some m =>
      if m.texts.length = 0 then .ok []
      else
        let parsedTerms := parse_structured_query query
        let sims := m.simOf (query ++ " " ++ joinSpace parsedTerms)
        let topIdx := (pyTailSlice k (fa sims)).reverse
        match build_results st.documents sims query parsedTerms topIdx with
        | .error _ => .ok []
        | .ok rs => .ok (List.insertionSort scoreGE rs)

/-! ## `document_processor.py`: clause extraction -/

/-- `\d+(?:\.\d+)*`, the numeric clause locator sub-pattern. -/
def numLocator : RE :=
  .seq (.plusCls isDigitC)
    (.starRE (.seq (.cls fun c => c == '.') (.plusCls isDigitC)))

/-- `(?:Clause|Section|Article)\s+(\d+(?:\.\d+)*)\s*:?\s*([^\n.]+)` with
`re.IGNORECASE` (`document_processor.py` line 125). -/
def clausePattern1 : RE :=
  .seq (.alt (.lit true ['C','l','a','u','s','e'])
      (.alt (.lit true ['S','e','c','t','i','o','n'])
        (.lit true ['A','r','t','i','c','l','e'])))
    (.seq (.plusCls pySpace)
      (.seq (.group 1 numLocator)
        (.seq (.starCls pySpace)
          (.seq (.optCls fun c => c == ':')
            (.seq (.starCls pySpace)
              (.group 2 (.plusCls fun c => c != '\n' && c != '.')))))))

/-- `(\d+(?:\.\d+)*)\.\s*([A-Z][^.]+)` with `re.IGNORECASE`
(line 126; the flag makes `[A-Z]` match any letter). -/
def clausePattern2 : RE :=
  .seq (.group 1 numLocator)
    (.seq (.cls fun c => c == '.')
      (.seq (.starCls pySpace)
        (.group 2 (.seq (.cls Char.isAlpha) (.plusCls fun c => c != '.')))))

/-- `([A-Z][^.]+)\s*-\s*Clause\s+(\d+(?:\.\d+)*)` with `re.IGNORECASE`
(line 127). -/
def clausePattern3 : RE :=
  .seq (.group 1 (.seq (.cls Char.isAlpha) (.plusCls fun c => c != '.')))
    (.seq (.starCls pySpace)
      (.seq (.cls fun c => c == '-')
        (.seq (.starCls pySpace)
          (.seq (.lit true ['C','l','a','u','s','e'])
            (.seq (.plusCls pySpace)
              (.group 2 numLocator))))))

/-- The `clause_info` dictionary. -/
structure ClauseInfo where
  title : String
  number : String
deriving DecidableEq

/-- `DocumentProcessor._extract_clause_info` (lines 117-141): the three
patterns are tried in order, first match anywhere wins.  In the source both
branches of the `if 'Clause' in pattern or 'Section' in pattern` test
perform the same assignment — `number = match.group(1)` and
`title = match.group(2).strip()` — so the branch test has no effect and the
translation applies that single assignment for every pattern. -/
def extract_clause_info (text : String) : ClauseInfo :=
  match reSearch clausePattern1 text.data with
  | some caps => ⟨pyStripStr (groupStr caps 2), groupStr caps 1⟩
  | none =>
    match reSearch clausePattern2 text.data with
    | some caps => ⟨pyStripStr (groupStr caps 2), groupStr caps 1⟩
    | none =>
      match reSearch clausePattern3 text.data with
      | some caps => ⟨pyStripStr (groupStr caps 2), groupStr caps 1⟩
      | none => ⟨"", ""⟩

/-! ## `document_processor.py`: sentence splitting and chunking -/

/-- A sentence-ending character for the splitter `(?<=[.!?])\s+`. -/
def isSentEnd (c : Char) : Bool := c == '.' || c == '!' || c == '?'

/-- The scan behind `re.split(r'(?<=[.!?])\s+', text)`: a whitespace
character whose predecessor is a sentence-ender starts a delimiter, which
greedily consumes the whole whitespace run; `acc` is the reversed current
segment. -/
def splitSentAux (acc : List Char) : List Char → List (List Char)
  | [] => [acc.reverse]
  | c :: rest =>
      if pySpace c && (match acc with | p :: _ => isSentEnd p | [] => false) then
        acc.reverse :: splitSentAux [] (rest.dropWhile pySpace)
      else
        splitSentAux (c :: acc) rest
  termination_by l => l.length
  decreasing_by
  · exact Nat.lt_succ_of_le (List.dropWhile_sublist pySpace).length_le
  · exact Nat.lt_succ_of_le (Nat.le_refl _)

/-- `re.split(r'(?<=[.!?])\s+', text)` (line 75). -/
def split_sentences (text : String) : List String :=
  (splitSentAux [] text.data).map fun l => ⟨l⟩

/-- An emitted chunk dictionary (text plus its metadata keys). -/
structure Chunk where
  text : String
  source : String
  page : Nat
  clauseTitle : String
  clauseNumber : String
  chunkId : Nat
deriving DecidableEq

/-- `self.chunk_size` (line 10). -/
def chunkSize : Nat := 1000

/-- The dictionary appended by lines 85-94 / 104-113: stripped buffer text,
metadata from `_extract_clause_info` on the unstripped buffer, and
`chunk_id = len(chunks)`. -/
def mkChunk (buf : List Char) (page : Nat) (filename : String)
    (nChunks : Nat) : Chunk :=
  let info := extract_clause_info ⟨buf⟩
  ⟨⟨pyStrip buf⟩, filename, page, info.title, info.number, nChunks⟩

/-- The sentence-accumulation loop of `_create_chunks` (lines 77-113):
when adding the next sentence would overflow a non-empty buffer, the buffer
is emitted and that sentence seeds the next buffer; otherwise the sentence
(plus a trailing blank) is appended to the buffer; a final non-blank buffer
is emitted at the end.  Buffers are character lists (Python strings). -/
def chunkLoop (page : Nat) (filename : String) (chunks : List Chunk)
    (current : List Char) : List (List Char) → List Chunk
  | [] =>
      if pyStrip current ≠ [] then
        chunks ++ [mkChunk current page filename chunks.length]
      else chunks
  | s :: rest =>
      if current.length + s.length > chunkSize ∧ current ≠ [] then
        chunkLoop page filename
          (chunks ++ [mkChunk current page filename chunks.length])
          (s ++ [' ']) rest
      else
        chunkLoop page filename chunks (current ++ s ++ [' ']) rest

/-- `DocumentProcessor._create_chunks` (lines 68-115). -/
def create_chunks (text : String) (page : Nat) (filename : String) :
    List Chunk :=
  chunkLoop page filename [] [] (splitSentAux [] text.data)

/-- The buffer obtained by appending each sentence of `g` plus a blank:
the ghost sentence-group view of a `chunkLoop` buffer. -/
def render (g : List (List Char)) : List Char :=
  g.flatMap fun s => s ++ [' ']

/-- The ghost counterpart of `chunkLoop` at the level of sentence groups:
it emits the same buffers, each recorded as the list of sentences it holds. -/
def chunkGroups (gcur : List (List Char)) : List (List Char) →
    List (List (List Char))
  | [] => if pyStrip (render gcur) ≠ [] then [gcur] else []
  | s :: rest =>
      if (render gcur).length + s.length > chunkSize ∧ render gcur ≠ [] then
        gcur :: chunkGroups [s] rest
      else chunkGroups (gcur ++ [s]) rest

/-- A sentence as produced by the splitter on normalized, stripped page
text: non-empty, not starting and not ending with whitespace. -/
def goodSent (s : List Char) : Prop :=
  s ≠ [] ∧ (∀ c, s.head? = some c → pySpace c = false) ∧
    (∀ c, s.getLast? = some c → pySpace c = false)

/-- The first character, if any, is not whitespace (decidably). -/
def headOk (l : List Char) : Bool :=
  match l.head? with
  | none => true
  | some c => !pySpace c

/-- The last character, if any, is not whitespace (decidably). -/
def lastOk (l : List Char) : Bool :=
  match l.getLast? with
  | none => true
  | some c => !pySpace c

/-! ## Concrete fixtures used by witnesses and counterexamples -/

/-- A trivial but row-count-faithful stand-in for `fit_transform`: one
matrix row per text, all similarity scores zero. -/
def trivFit (ts : List String) : TMatrix :=
  ⟨ts, fun _ => ts.map fun _ => 0, fun _ => by simp⟩

/-- A chunk long enough and keyword-bearing, so it passes the relevance
filter. -/
def relDoc : VDoc :=
  ⟨"clause 1: the policy covers knee surgery for the insured person.",
   [("source", "doc.pdf")]⟩

/-- A chunk shorter than 50 characters, rejected by the relevance filter. -/
def shortDoc : VDoc := ⟨"hello", [("source", "doc.pdf")]⟩

/-- A second relevance-passing chunk with content disjoint from `relDoc`. -/
def relDoc2 : VDoc :=
  ⟨"the policy excludes cosmetic surgery expenses unless caused by an accidental injury.",
   [("source", "doc2.pdf")]⟩

def docA : VDoc := ⟨"a", []⟩

def docB : VDoc := ⟨"b", []⟩

/-- A one-row matrix giving every query the similarity row `[1/2]`. -/
def mat1 : TMatrix := ⟨["a"], fun _ => [mkRat 1 2], fun _ => rfl⟩

/-- A store holding one document with matrix `mat1`. -/
def exSt : VState := ⟨[docA], some mat1, true⟩

/-- A two-row matrix giving every query the tied similarity row
`[1/2, 1/2]`. -/
def mat2 : TMatrix := ⟨["a", "b"], fun _ => [mkRat 1 2, mkRat 1 2], fun _ => rfl⟩

/-- A store holding two documents whose rows always tie. -/
def cexSt : VState := ⟨[docA, docB], some mat2, true⟩

/-- A two-row matrix with distinct similarities 1/2 and 3/4. -/
def mat3 : TMatrix := ⟨["a", "b"], fun _ => [mkRat 1 2, mkRat 3 4], fun _ => rfl⟩

/-- A store holding two documents whose rows get distinct similarities. -/
def exSt3 : VState := ⟨[docA, docB], some mat3, true⟩

/-- The raw (pre-boost) cosine similarity the search assigns to matrix row
`i` for a query: entry `i` of `cosine_similarity(...)[0]` computed on the
expanded query. -/
def raw_similarity (st : VState) (q : String) (i : Nat) : ℚ :=
  match st.vectors with
  | none => 0
  | some m => (m.simOf (expanded_query q)).getD i 0

/-! ## Shared helper lemmas -/

theorem add_documents_documents (ft : List String → TMatrix) (st : VState)
    (docs : List VDoc) :
    (add_documents ft st docs).documents =
      docs.filter fun d => is_relevant_content d.text := by
  unfold add_documents
  by_cases h : (docs.filter fun d => is_relevant_content d.text).isEmpty
  · simp only [h, if_pos]
    exact (List.isEmpty_iff.mp h).symm
  · simp only [h]
    simp

theorem argsortAsc_perm (sims : List ℚ) :
    List.Perm (argsortAsc sims) (List.range sims.length) :=
  List.perm_insertionSort _ _

theorem argsortAsc_sorted (sims : List ℚ) :
    (argsortAsc sims).Pairwise (simLex sims) :=
  List.sorted_insertionSort _ _

/-- The concrete model is one admissible argsort outcome. -/
theorem argsortAsc_isAsc (sims : List ℚ) :
    IsAscArgsort sims (argsortAsc sims) := by
  refine ⟨argsortAsc_perm sims, ?_⟩
  refine List.Pairwise.imp ?_ (argsortAsc_sorted sims)
  intro i j hij
  rcases hij with h | ⟨h, _⟩
  · exact le_of_lt h
  · exact le_of_eq h

/-- `search_documents` is the abstract pipeline at the concrete argsort. -/
theorem search_documents_eq_arg (st : VState) (query : String) (k : Nat) :
    search_documents st query k = search_documents_arg st query k argsortAsc :=
  rfl

/-- In a list sorted by `r`, membership in a suffix is closed under passing
to elements that do not `r`-precede a member of the suffix. -/
theorem sorted_suffix_closed {r : ℕ → ℕ → Prop} {l s : List ℕ} {i j : ℕ}
    (hsuf : s <:+ l) (hsort : l.Pairwise r) (hi : i ∈ s) (hj : j ∈ l)
    (hnr : ¬r j i) : j ∈ s := by
  obtain ⟨pre, hpre⟩ := hsuf
  subst hpre
  rcases List.mem_append.mp hj with hjp | hjs
  · exact absurd ((List.pairwise_append.mp hsort).2.2 j hjp i hi) hnr
  · exact hjs

theorem pyTailSlice_suffix (k : Nat) (l : List ℕ) : pyTailSlice k l <:+ l := by
  unfold pyTailSlice
  by_cases h : k = 0
  · simp [h]
  · simp only [h, if_neg, ite_false]
    exact List.drop_suffix _ _

theorem pyTailSlice_length_le (k : Nat) (l : List ℕ) (hk : 0 < k) :
    (pyTailSlice k l).length ≤ k := by
  unfold pyTailSlice
  rw [if_neg (Nat.pos_iff_ne_zero.mp hk)]
  rw [List.length_drop]
  omega

/-- Every entry of a successfully built result list comes from a candidate
row that cleared the floor, carrying a copy of the document at that row. -/
theorem build_results_mem (docs : List VDoc) (sims : List ℚ) (q : String)
    (pt : List String) (idxs : List Nat) (rs : List SDoc)
    (h : build_results docs sims q pt idxs = .ok rs) :
    ∀ r ∈ rs, r.row ∈ idxs ∧ floorThreshold < sims.getD r.row 0 ∧
      docs[r.row]? = some r.doc := by
  induction idxs generalizing rs with
  | nil =>
      unfold build_results at h
      cases h
      intro r hr
      cases hr
  | cons idx rest ih =>
      unfold build_results at h
      by_cases hf : floorThreshold < sims.getD idx 0
      · rw [if_pos hf] at h
        cases hd : docs[idx]? with
        | none => rw [hd] at h; cases h
        | some d =>
            rw [hd] at h
            cases hb : build_results docs sims q pt rest with
            | error e => rw [hb] at h; cases h
            | ok rs0 =>
                rw [hb] at h
                cases h
                intro r hr
                rcases List.mem_cons.mp hr with hr0 | hr0
                · subst hr0
                  exact ⟨List.mem_cons_self _ _, hf, hd⟩
                · have := ih rs0 hb r hr0
                  exact ⟨List.mem_cons_of_mem _ this.1, this.2⟩
      · rw [if_neg hf] at h
        intro r hr
        have := ih rs h r hr
        exact ⟨List.mem_cons_of_mem _ this.1, this.2⟩

theorem build_results_length (docs : List VDoc) (sims : List ℚ) (q : String)
    (pt : List String) (idxs : List Nat) (rs : List SDoc)
    (h : build_results docs sims q pt idxs = .ok rs) :
    rs.length ≤ idxs.length := by
  induction idxs generalizing rs with
  | nil => unfold build_results at h; cases h; simp
  | cons idx rest ih =>
      unfold build_results at h
      by_cases hf : floorThreshold < sims.getD idx 0
      · rw [if_pos hf] at h
        cases hd : docs[idx]? with
        | none => rw [hd] at h; cases h
        | some d =>
            rw [hd] at h
            cases hb : build_results docs sims q pt rest with
            | error e => rw [hb] at h; cases h
            | ok rs0 =>
                rw [hb] at h
                cases h
                simpa using Nat.succ_le_succ (ih rs0 hb)
      · rw [if_neg hf] at h
        exact (ih rs h).trans (Nat.le_succ _)

/-- A successful build misses no candidate row that cleared the floor. -/
theorem build_results_complete (docs : List VDoc) (sims : List ℚ) (q : String)
    (pt : List String) (idxs : List Nat) (rs : List SDoc)
    (h : build_results docs sims q pt idxs = .ok rs) :
    ∀ idx ∈ idxs, floorThreshold < sims.getD idx 0 → ∃ r ∈ rs, r.row = idx := by
  induction idxs generalizing rs with
  | nil => intro idx hidx; cases hidx
  | cons i0 rest ih =>
      unfold build_results at h
      by_cases hf : floorThreshold < sims.getD i0 0
      · rw [if_pos hf] at h
        cases hd : docs[i0]? with
        | none => rw [hd] at h; cases h
        | some d =>
            rw [hd] at h
            cases hb : build_results docs sims q pt rest with
            | error e => rw [hb] at h; cases h
            | ok rs0 =>
                rw [hb] at h
                cases h
                intro idx hidx hfloor
                rcases List.mem_cons.mp hidx with rfl | hmem
                · exact ⟨_, List.mem_cons_self _ _, rfl⟩
                · obtain ⟨r, hr, hrow⟩ := ih rs0 hb idx hmem hfloor
                  exact ⟨r, List.mem_cons_of_mem _ hr, hrow⟩
      · rw [if_neg hf] at h
        intro idx hidx hfloor
        rcases List.mem_cons.mp hidx with rfl | hmem
        · exact absurd hfloor hf
        · exact ih rs h idx hmem hfloor

/-- Case analysis on a successful search: either it returned `[]` (empty
matrix guard or a swallowed `IndexError`), or the result is the stable
descending sort of a successful build over the top-`k` candidate rows. -/
theorem search_ok_cases (st : VState) (m : TMatrix) (q : String) (k : Nat)
    (rs : List SDoc) (hv : st.vectors = some m)
    (h : search_documents st q k = .ok rs) :
    rs = [] ∨
      ∃ rs0,
        build_results st.documents (m.simOf (expanded_query q)) q
          (parse_structured_query q)
          ((pyTailSlice k (argsortAsc (m.simOf (expanded_query q)))).reverse) =
            .ok rs0 ∧
        rs = List.insertionSort scoreGE rs0 := by
  simp only [search_documents, hv] at h
  by_cases hne : m.texts.length = 0
  · rw [if_pos hne] at h
    injection h with h
    exact Or.inl h.symm
  · rw [if_neg hne] at h
    simp only [expanded_query]
    cases hb : build_results st.documents
        (m.simOf (q ++ " " ++ joinSpace (parse_structured_query q))) q
        (parse_structured_query q)
        ((pyTailSlice k (argsortAsc
          (m.simOf (q ++ " " ++ joinSpace (parse_structured_query q))))).reverse) with
    | error e =>
        rw [hb] at h
        injection h with h
        exact Or.inl h.symm
    | ok rs0 =>
        rw [hb] at h
        injection h with h
        exact Or.inr ⟨rs0, rfl, h.symm⟩

/-- Case analysis on a successful abstract-argsort search, mirroring
`search_ok_cases`. -/
theorem search_arg_ok_cases (fa : List ℚ → List Nat) (st : VState)
    (m : TMatrix) (q : String) (k : Nat) (rs : List SDoc)
    (hv : st.vectors = some m)
    (h : search_documents_arg st q k fa = .ok rs) :
    rs = [] ∨
      ∃ rs0,
        build_results st.documents (m.simOf (expanded_query q)) q
          (parse_structured_query q)
          ((pyTailSlice k (fa (m.simOf (expanded_query q)))).reverse) =
            .ok rs0 ∧
        rs = List.insertionSort scoreGE rs0 := by
  simp only [search_documents_arg, hv] at h
  by_cases hne : m.texts.length = 0
  · rw [if_pos hne] at h
    injection h with h
    exact Or.inl h.symm
  · rw [if_neg hne] at h
    simp only [expanded_query]
    cases hb : build_results st.documents
        (m.simOf (q ++ " " ++ joinSpace (parse_structured_query q))) q
        (parse_structured_query q)
        ((pyTailSlice k (fa
          (m.simOf (q ++ " " ++ joinSpace (parse_structured_query q))))).reverse) with
    | error e =>
        rw [hb] at h
        injection h with h
        exact Or.inl h.symm
    | ok rs0 =>
        rw [hb] at h
        injection h with h
        exact Or.inr ⟨rs0, rfl, h.symm⟩

/-- Every document a successful search returns is an element of the
current document list. -/
theorem search_result_mem (st : VState) (q : String) (k : Nat)
    (rs : List SDoc) (h : search_documents st q k = .ok rs) :
    ∀ r ∈ rs, r.doc ∈ st.documents := by
  cases hv : st.vectors with
  | none =>
      simp only [search_documents, hv] at h
      exact Except.noConfusion h
  | some m =>
      rcases search_ok_cases st m q k rs hv h with rfl | ⟨rs0, hb, rfl⟩
      · intro r hr; cases hr
      · intro r hr
        have hr0 : r ∈ rs0 := (List.perm_insertionSort scoreGE rs0).mem_iff.mp hr
        have := build_results_mem _ _ _ _ _ _ hb r hr0
        exact List.getElem?_mem this.2.2

/-! ## Sentence-splitter shape lemmas (for chunk coverage) -/

theorem headOk_spec {l : List Char} (h : headOk l = true) :
    ∀ c, l.head? = some c → pySpace c = false := by
  intro c hc
  unfold headOk at h
  rw [hc] at h
  simpa using h

theorem lastOk_spec {l : List Char} (h : lastOk l = true) :
    ∀ c, l.getLast? = some c → pySpace c = false := by
  intro c hc
  unfold lastOk at h
  rw [hc] at h
  simpa using h

theorem sentEnd_not_space {c : Char} (h : isSentEnd c = true) :
    pySpace c = false := by
  unfold isSentEnd at h
  simp only [Bool.or_eq_true, beq_iff_eq] at h
  rcases h with (rfl | rfl) | rfl <;> decide

theorem dropWhile_head_not (p : Char → Bool) (l : List Char) :
    ∀ c, (l.dropWhile p).head? = some c → p c = false := by
  induction l with
  | nil => intro c h; cases h
  | cons a t ih =>
      intro c h
      rw [List.dropWhile_cons] at h
      by_cases hp : p a
      · rw [if_pos hp] at h
        exact ih c h
      · rw [if_neg hp] at h
        cases h
        simpa using hp

theorem dropWhile_eq_self_of_head (p : Char → Bool) (l : List Char)
    (h : ∀ c, l.head? = some c → p c = false) : l.dropWhile p = l := by
  cases l with
  | nil => rfl
  | cons a t =>
      rw [List.dropWhile_cons, h a rfl]
      simp

theorem suffix_getLast? {l1 l2 : List Char} (h : l1 <:+ l2) (hne : l1 ≠ []) :
    l1.getLast? = l2.getLast? := by
  obtain ⟨pre, rfl⟩ := h
  exact (List.getLast?_append_of_ne_nil pre hne).symm

theorem getLast?_cons_of_ne_nil {a : Char} {l : List Char} (h : l ≠ []) :
    (a :: l).getLast? = l.getLast? := by
  cases l with
  | nil => exact absurd rfl h
  | cons b t => exact List.getLast?_cons_cons

theorem splitSentAux_nil (acc : List Char) :
    splitSentAux acc [] = [acc.reverse] := by
  rw [splitSentAux.eq_def]

theorem splitSentAux_cons (acc : List Char) (c : Char) (t : List Char) :
    splitSentAux acc (c :: t) =
      if pySpace c && (match acc with | p :: _ => isSentEnd p | [] => false) then
        acc.reverse :: splitSentAux [] (t.dropWhile pySpace)
      else splitSentAux (c :: acc) t := by
  rw [splitSentAux.eq_def]

/-- Every segment the splitter emits from stripped non-empty text is a
well-shaped sentence: non-empty, starting and ending with non-whitespace.
The hypotheses are the invariants the scan maintains: the segment built so
far starts with non-whitespace; at a fresh segment the input starts with
non-whitespace; the input never ends in whitespace; and at the end of input
the pending segment is non-empty with a non-whitespace last character. -/
theorem splitSentAux_good :
    ∀ (acc cs : List Char),
      (∀ c, acc.getLast? = some c → pySpace c = false) →
      (acc = [] → ∀ c, cs.head? = some c → pySpace c = false) →
      (∀ c, cs.getLast? = some c → pySpace c = false) →
      (cs = [] → acc ≠ []) →
      (cs = [] → ∀ c, acc.head? = some c → pySpace c = false) →
      ∀ s ∈ splitSentAux acc cs, goodSent s := by
  intro acc cs
  induction acc, cs using splitSentAux.induct with
  | case1 acc =>
      intro hA hB hC hD hE s hs
      rw [splitSentAux_nil] at hs
      rcases List.mem_singleton.mp hs with rfl
      refine ⟨by simpa using hD rfl, ?_, ?_⟩
      · intro c hc
        rw [List.head?_reverse] at hc
        exact hA c hc
      · intro c hc
        rw [List.getLast?_reverse] at hc
        exact hE rfl c hc
  | case2 acc c t hcond ih =>
      intro hA hB hC hD hE s hs
      rw [splitSentAux_cons, if_pos hcond] at hs
      simp only [Bool.and_eq_true] at hcond
      obtain ⟨hcsp, hmatch⟩ := hcond
      -- the head of `acc` is a sentence-ender, so `acc` is non-empty
      obtain ⟨p, accT, rfl⟩ : ∃ p accT, acc = p :: accT := by
        cases acc with
        | nil => cases hmatch
        | cons p accT => exact ⟨p, accT, rfl⟩
      have hsend : isSentEnd p = true := hmatch
      -- the remaining input after the delimiter is non-empty
      have hdw_ne : t.dropWhile pySpace ≠ [] := by
        intro hdw
        have hallsp : ∀ x ∈ t, pySpace x = true := List.dropWhile_eq_nil_iff.mp hdw
        cases ht : t with
        | nil =>
            subst ht
            have := hC c rfl
            rw [this] at hcsp
            cases hcsp
        | cons b tb =>
            subst ht
            rcases List.eq_nil_or_concat tb with rfl | ⟨tb2, d, htb⟩
            · have := hC b (by rfl)
              rw [hallsp b (by simp)] at this
              cases this
            · subst htb
              have hlast : (c :: b :: (tb2.concat d)).getLast? = some d := by
                simp only [List.concat_eq_append]
                rw [getLast?_cons_of_ne_nil (by simp), getLast?_cons_of_ne_nil (by simp)]
                rw [List.getLast?_append_of_ne_nil tb2 (List.cons_ne_nil d [])]
                rfl
              have := hC d hlast
              rw [hallsp d (by simp [List.concat_eq_append])] at this
              cases this
      rcases List.mem_cons.mp hs with rfl | hs2
      · -- the emitted segment
        refine ⟨by simp, ?_, ?_⟩
        · intro c2 hc2
          rw [List.head?_reverse] at hc2
          exact hA c2 hc2
        · intro c2 hc2
          rw [List.getLast?_reverse] at hc2
          cases hc2
          exact sentEnd_not_space hsend
      · -- segments of the recursive call
        refine ih (fun c2 h2 => by cases h2) (fun _ => dropWhile_head_not pySpace t)
          ?_ (fun h => absurd h hdw_ne) (fun h => absurd h hdw_ne) s hs2
        intro c2 hc2
        have hsuf : t.dropWhile pySpace <:+ t := List.dropWhile_suffix pySpace
        rw [suffix_getLast? hsuf hdw_ne] at hc2
        have ht_ne : t ≠ [] := by
          intro ht
          subst ht
          cases hc2
        rw [← getLast?_cons_of_ne_nil (a := c) ht_ne] at hc2
        exact hC c2 hc2
  | case3 acc c t hcond ih =>
      intro hA hB hC hD hE s hs
      rw [splitSentAux_cons, if_neg hcond] at hs
      refine ih ?_ (fun h => absurd h (List.cons_ne_nil c acc)) ?_
        (fun _ => List.cons_ne_nil c acc) ?_ s hs
      · -- first character of the extended segment is non-whitespace
        intro c2 hc2
        cases acc with
        | nil =>
            cases hc2
            exact hB rfl c rfl
        | cons a accT =>
            rw [getLast?_cons_of_ne_nil (List.cons_ne_nil a accT)] at hc2
            exact hA c2 hc2
      · -- the rest of the input still ends in non-whitespace
        intro c2 hc2
        have ht_ne : t ≠ [] := by
          intro ht
          subst ht
          cases hc2
        rw [← getLast?_cons_of_ne_nil (a := c) ht_ne] at hc2
        exact hC c2 hc2
      · -- at end of input, the extended segment starts with non-whitespace
        intro ht c2 hc2
        subst ht
        cases hc2
        exact hC c (by rfl)

theorem splitSentAux_ne_nil : ∀ (acc cs : List Char), splitSentAux acc cs ≠ [] := by
  intro acc cs
  induction acc, cs using splitSentAux.induct with
  | case1 acc => rw [splitSentAux_nil]; exact List.cons_ne_nil _ _
  | case2 acc c t hcond ih =>
      rw [splitSentAux_cons, if_pos hcond]
      exact List.cons_ne_nil _ _
  | case3 acc c t hcond ih =>
      rw [splitSentAux_cons, if_neg hcond]
      exact ih

/-! ## Buffer-rendering lemmas (for chunk coverage) -/

theorem render_append (g1 g2 : List (List Char)) :
    render (g1 ++ g2) = render g1 ++ render g2 :=
  List.flatMap_append g1 g2 _

theorem render_single (s : List Char) : render [s] = s ++ [' '] := by
  simp [render]

theorem render_nil_iff (g : List (List Char))
    (hgood : ∀ s ∈ g, goodSent s) : render g = [] ↔ g = [] := by
  constructor
  · intro h
    cases g with
    | nil => rfl
    | cons s rest =>
        exfalso
        have : render (s :: rest) = s ++ [' '] ++ render rest := by
          simp [render]
        rw [this] at h
        simp at h
  · intro h
    subst h
    rfl

theorem render_head_not_space (g : List (List Char))
    (hgood : ∀ s ∈ g, goodSent s) :
    ∀ c, (render g).head? = some c → pySpace c = false := by
  cases g with
  | nil => intro c h; cases h
  | cons s rest =>
      intro c h
      have hs : goodSent s := hgood s (List.mem_cons_self s rest)
      have : render (s :: rest) = s ++ ([' '] ++ render rest) := by
        simp [render]
      rw [this, List.head?_append_of_ne_nil s hs.1] at h
      exact hs.2.1 c h

/-- For a non-empty group of well-shaped sentences, stripping the rendered
buffer removes exactly the final blank. -/
theorem pyStrip_render_concat (g2 : List (List Char)) (sn : List Char)
    (hgood : ∀ s ∈ g2 ++ [sn], goodSent s) :
    pyStrip (render (g2 ++ [sn])) = render g2 ++ sn := by
  have hsn : goodSent sn := hgood sn (by simp)
  have hgood2 : ∀ s ∈ g2, goodSent s := fun s hs => hgood s (by simp [hs])
  have hA : render (g2 ++ [sn]) = (render g2 ++ sn) ++ [' '] := by
    rw [render_append, render_single, ← List.append_assoc]
  unfold pyStrip
  rw [hA]
  have h1 : ((render g2 ++ sn) ++ [' ']).dropWhile pySpace =
      (render g2 ++ sn) ++ [' '] := by
    apply dropWhile_eq_self_of_head
    intro c hc
    cases hg2 : g2 with
    | nil =>
        subst hg2
        simp only [render, List.flatMap_nil, List.nil_append] at hc ⊢
        rw [List.head?_append_of_ne_nil sn hsn.1] at hc
        exact hsn.2.1 c hc
    | cons s0 rest =>
        subst hg2
        have hs0 : goodSent s0 := hgood2 s0 (List.mem_cons_self s0 rest)
        have hre : render (s0 :: rest) ++ sn ++ [' '] =
            s0 ++ ([' '] ++ render rest ++ sn ++ [' ']) := by
          simp [render]
        rw [hre, List.head?_append_of_ne_nil s0 hs0.1] at hc
        exact hs0.2.1 c hc
  rw [h1, List.reverse_concat (render g2 ++ sn) ' ']
  have h2 : (' ' :: (render g2 ++ sn).reverse).dropWhile pySpace =
      (render g2 ++ sn).reverse.dropWhile pySpace := by
    rw [List.dropWhile_cons]
    simp [pySpace]
  rw [h2]
  have h3 : (render g2 ++ sn).reverse.dropWhile pySpace =
      (render g2 ++ sn).reverse := by
    apply dropWhile_eq_self_of_head
    intro c hc
    rw [List.head?_reverse, List.getLast?_append_of_ne_nil (render g2) hsn.1] at hc
    exact hsn.2.2 c hc
  rw [h3, List.reverse_reverse]

theorem render_mem_decomp (g : List (List Char)) (s : List Char)
    (hs : s ∈ g) : ∃ l r, render g = l ++ s ++ r := by
  obtain ⟨ga, gb, rfl⟩ := List.append_of_mem hs
  refine ⟨render ga, [' '] ++ render gb, ?_⟩
  rw [render_append]
  simp [render, List.append_assoc]

/-- Every sentence of a non-empty well-shaped group occurs verbatim inside
the stripped rendered buffer. -/
theorem strip_render_mem (g2 : List (List Char)) (sn : List Char)
    (hgood : ∀ s ∈ g2 ++ [sn], goodSent s) :
    ∀ s ∈ g2 ++ [sn], ∃ l r, pyStrip (render (g2 ++ [sn])) = l ++ s ++ r := by
  intro s hs
  rw [pyStrip_render_concat g2 sn hgood]
  rcases List.mem_append.mp hs with h | h
  · obtain ⟨l, r, h2⟩ := render_mem_decomp g2 s h
    exact ⟨l, r ++ sn, by rw [h2]; simp [List.append_assoc]⟩
  · rw [List.mem_singleton.mp h]
    exact ⟨render g2, [], by simp⟩

/-! ## Chunk-loop / sentence-group alignment lemmas -/

/-- The chunk texts produced by the accumulation loop are exactly the
stripped rendered buffers of the ghost sentence groups. -/
theorem chunkLoop_text_eq (page : Nat) (filename : String) :
    ∀ (ss gcur : List (List Char)) (chunks : List Chunk),
      (chunkLoop page filename chunks (render gcur) ss).map
          (fun ch => ch.text.data) =
        chunks.map (fun ch => ch.text.data) ++
          (chunkGroups gcur ss).map fun g => pyStrip (render g) := by
  intro ss
  induction ss with
  | nil =>
      intro gcur chunks
      rw [chunkLoop, chunkGroups]
      by_cases hc : pyStrip (render gcur) ≠ []
      · rw [if_pos hc, if_pos hc]
        simp [mkChunk]
      · rw [if_neg hc, if_neg hc]
        simp
  | cons s rest ih =>
      intro gcur chunks
      rw [chunkLoop, chunkGroups]
      by_cases hc : (render gcur).length + s.length > chunkSize ∧ render gcur ≠ []
      · rw [if_pos hc, if_pos hc]
        rw [show s ++ [' '] = render [s] from (render_single s).symm]
        rw [ih [s] (chunks ++ [mkChunk (render gcur) page filename chunks.length])]
        simp [mkChunk]
      · rw [if_neg hc, if_neg hc]
        rw [show render gcur ++ s ++ [' '] = render (gcur ++ [s]) by
          rw [render_append, render_single, ← List.append_assoc]]
        exact ih (gcur ++ [s]) chunks

/-- The ghost groups partition the incoming sentences: flattening them
gives back the pending buffer followed by the remaining sentences. -/
theorem chunkGroups_flatten :
    ∀ (ss gcur : List (List Char)),
      (∀ s ∈ gcur, goodSent s) → (∀ s ∈ ss, goodSent s) →
      (chunkGroups gcur ss).flatten = gcur ++ ss := by
  intro ss
  induction ss with
  | nil =>
      intro gcur hg hs
      rw [chunkGroups]
      rcases List.eq_nil_or_concat gcur with rfl | ⟨g2, sn, rfl⟩
      · have : pyStrip (render ([] : List (List Char))) = [] := rfl
        rw [if_neg (by simp [this])]
        rfl
      · rw [List.concat_eq_append] at *
        have hne : pyStrip (render (g2 ++ [sn])) ≠ [] := by
          rw [pyStrip_render_concat g2 sn hg]
          have hsn : goodSent sn := hg sn (by simp)
          simp [hsn.1]
        rw [if_pos hne]
        simp
  | cons s rest ih =>
      intro gcur hg hs
      rw [chunkGroups]
      have hgs : goodSent s := hs s (List.mem_cons_self s rest)
      have hrest : ∀ x ∈ rest, goodSent x := fun x hx => hs x (by simp [hx])
      by_cases hc : (render gcur).length + s.length > chunkSize ∧ render gcur ≠ []
      · rw [if_pos hc, List.flatten_cons,
          ih [s] (by intro x hx; rw [List.mem_singleton.mp hx]; exact hgs) hrest]
        simp
      · rw [if_neg hc,
          ih (gcur ++ [s])
            (by
              intro x hx
              rcases List.mem_append.mp hx with h | h
              · exact hg x h
              · rw [List.mem_singleton.mp h]; exact hgs)
            hrest]
        simp

/-- At least one group is emitted whenever anything is pending or left. -/
theorem chunkGroups_ne_nil :
    ∀ (ss gcur : List (List Char)),
      (∀ s ∈ gcur, goodSent s) → (∀ s ∈ ss, goodSent s) →
      (gcur ≠ [] ∨ ss ≠ []) → chunkGroups gcur ss ≠ [] := by
  intro ss
  induction ss with
  | nil =>
      intro gcur hg _ hor
      rcases hor with hor | hor
      · rw [chunkGroups]
        rcases List.eq_nil_or_concat gcur with rfl | ⟨g2, sn, rfl⟩
        · exact absurd rfl hor
        · rw [List.concat_eq_append] at *
          have hne : pyStrip (render (g2 ++ [sn])) ≠ [] := by
            rw [pyStrip_render_concat g2 sn hg]
            have hsn : goodSent sn := hg sn (by simp)
            simp [hsn.1]
          rw [if_pos hne]
          exact List.cons_ne_nil _ _
      · exact absurd rfl hor
  | cons s rest ih =>
      intro gcur hg hs _
      rw [chunkGroups]
      have hgs : goodSent s := hs s (List.mem_cons_self s rest)
      have hrest : ∀ x ∈ rest, goodSent x := fun x hx => hs x (by simp [hx])
      by_cases hc : (render gcur).length + s.length > chunkSize ∧ render gcur ≠ []
      · rw [if_pos hc]
        exact List.cons_ne_nil _ _
      · rw [if_neg hc]
        refine ih (gcur ++ [s]) ?_ hrest (Or.inl (by simp))
        intro x hx
        rcases List.mem_append.mp hx with h | h
        · exact hg x h
        · rw [List.mem_singleton.mp h]; exact hgs

/-- Every emitted group is non-empty and consists of well-shaped
sentences. -/
theorem chunkGroups_members :
    ∀ (ss gcur : List (List Char)),
      (∀ s ∈ gcur, goodSent s) → (∀ s ∈ ss, goodSent s) →
      ∀ g ∈ chunkGroups gcur ss, g ≠ [] ∧ ∀ s ∈ g, goodSent s := by
  intro ss
  induction ss with
  | nil =>
      intro gcur hg _ g hmem
      rw [chunkGroups] at hmem
      by_cases hcond : pyStrip (render gcur) ≠ []
      · rw [if_pos hcond] at hmem
        rw [List.mem_singleton.mp hmem]
        refine ⟨?_, hg⟩
        intro hnil
        subst hnil
        exact hcond rfl
      · rw [if_neg hcond] at hmem
        cases hmem
  | cons s rest ih =>
      intro gcur hg hs g hmem
      rw [chunkGroups] at hmem
      have hgs : goodSent s := hs s (List.mem_cons_self s rest)
      have hrest : ∀ x ∈ rest, goodSent x := fun x hx => hs x (by simp [hx])
      by_cases hc : (render gcur).length + s.length > chunkSize ∧ render gcur ≠ []
      · rw [if_pos hc] at hmem
        rcases List.mem_cons.mp hmem with rfl | hmem2
        · refine ⟨?_, hg⟩
          intro hnil
          subst hnil
          exact hc.2 rfl
        · exact ih [s]
            (by intro x hx; rw [List.mem_singleton.mp hx]; exact hgs) hrest g hmem2
      · rw [if_neg hc] at hmem
        exact ih (gcur ++ [s])
          (by
            intro x hx
            rcases List.mem_append.mp hx with h | h
            · exact hg x h
            · rw [List.mem_singleton.mp h]; exact hgs)
          hrest g hmem

/-! ## Claim theorems -/

/-- C3: replace semantics.  After `index(batch1); index(batch2)` with
disjoint batches, `count()` reflects exactly batch2's surviving chunks and
no batch1 document can appear in any subsequent `search()` result: the
document list after the second call is exactly the filtered batch2 (also
when zero chunks survive), and every search result copies an entry of the
current document list. -/
theorem c3_replace_semantics (ft : List String → TMatrix) (st0 : VState)
    (b1 b2 : List VDoc) (hdisj : ∀ d ∈ b1, d ∉ b2) :
    get_document_count (add_documents ft (add_documents ft st0 b1) b2) =
      (b2.filter fun d => is_relevant_content d.text).length ∧
    ∀ q k rs,
      search_documents (add_documents ft (add_documents ft st0 b1) b2) q k =
        .ok rs →
      ∀ r ∈ rs, r.doc ∉ b1 := by
  constructor
  · unfold get_document_count
    rw [add_documents_documents]
  · intro q k rs h r hr hrb1
    have hmem := search_result_mem _ q k rs h r hr
    rw [add_documents_documents] at hmem
    exact hdisj r.doc hrb1 (List.mem_of_mem_filter hmem)

/-- C3 witness: two concrete disjoint one-chunk batches. -/
theorem c3_replace_semantics_witness :
    (∀ d ∈ [relDoc], d ∉ [relDoc2]) ∧
    (get_document_count
        (add_documents trivFit (add_documents trivFit empty_vstate [relDoc])
          [relDoc2]) =
      ([relDoc2].filter fun d => is_relevant_content d.text).length ∧
    ∀ q k rs,
      search_documents
          (add_documents trivFit (add_documents trivFit empty_vstate [relDoc])
            [relDoc2]) q k = .ok rs →
      ∀ r ∈ rs, r.doc ∉ [relDoc]) :=
  ⟨by decide,
   c3_replace_semantics trivFit empty_vstate [relDoc] [relDoc2] (by decide)⟩

/-- C4: floor property.  For a positive `k`, a successful search returns at
most `k` results, and every returned document's raw (pre-boost) cosine
similarity strictly exceeds the 0.01 floor — boosting is applied only to
candidates that already cleared the floor, so it can never add a document
that failed it. -/
theorem c4_floor_property (st : VState) (q : String) (k : Nat)
    (rs : List SDoc) (hk : 0 < k) (h : search_documents st q k = .ok rs) :
    rs.length ≤ k ∧ ∀ r ∈ rs, floorThreshold < raw_similarity st q r.row := by
  cases hv : st.vectors with
  | none =>
      simp only [search_documents, hv] at h
      exact Except.noConfusion h
  | some m =>
      rcases search_ok_cases st m q k rs hv h with rfl | ⟨rs0, hb, rfl⟩
      · exact ⟨Nat.zero_le k, fun r hr => absurd hr (List.not_mem_nil r)⟩
      · constructor
        · rw [(List.perm_insertionSort scoreGE rs0).length_eq]
          refine (build_results_length _ _ _ _ _ _ hb).trans ?_
          rw [List.length_reverse]
          exact pyTailSlice_length_le _ _ hk
        · intro r hr
          have hr0 : r ∈ rs0 :=
            (List.perm_insertionSort scoreGE rs0).mem_iff.mp hr
          have hspec := build_results_mem _ _ _ _ _ _ hb r hr0
          simp only [raw_similarity, hv]
          exact hspec.2.1

/-- C4 witness: a one-document store with raw similarity 1/2. -/
theorem c4_floor_property_witness :
    (0 < 1 ∧ search_documents exSt "b" 1 = .ok [⟨docA, mkRat 1 2, 0⟩]) ∧
    ([(⟨docA, mkRat 1 2, 0⟩ : SDoc)].length ≤ 1 ∧
      ∀ r ∈ [(⟨docA, mkRat 1 2, 0⟩ : SDoc)],
        floorThreshold < raw_similarity exSt "b" r.row) :=
  have hs : search_documents exSt "b" 1 = .ok [⟨docA, mkRat 1 2, 0⟩] := by decide
  ⟨⟨Nat.one_pos, hs⟩, c4_floor_property exSt "b" 1 _ Nat.one_pos hs⟩

/-- C6 counterexample: two indexed documents with equal raw similarity and
`k = 1`.  The code computes `similarities.argsort()[-k:][::-1]`: the
ascending argsort lists the tied rows as `[0, 1]`, the `[-1:]` slice keeps
row 1 and the search returns the *later* chunk (row 1, document "b"), not
the earlier one the claim promises. -/
theorem c6_tie_selects_later_row :
    raw_similarity cexSt "q" 0 = raw_similarity cexSt "q" 1 ∧
    search_documents cexSt "q" 1 = .ok [⟨docB, mkRat 1 2, 1⟩] := by
  constructor
  · decide
  · decide

/-- C6 amended: the top-`k` candidates are selected by raw cosine
similarity *up to ties*, for every tie order numpy's argsort may produce.
numpy's default quicksort scrambles runs of equal keys (only short runs
fall into its stable insertion-sort phase), so all the program guarantees
is: `search_documents` is the abstract pipeline at one admissible
ascending argsort, and for any admissible argsort outcome a returned
document is never outranked by an absent indexed row — whenever a returned
document's raw similarity is strictly below that of some row, that row is
returned as well.  Which of several tied rows survives the `[-k:]` cut is
implementation-defined, and in particular not the lowest sequence id (the
counterexample shows the later chunk winning a two-way tie). -/
theorem c6_selection_by_similarity_up_to_ties (fa : List ℚ → List Nat)
    (hfa : ∀ sims, IsAscArgsort sims (fa sims)) (st : VState) (m : TMatrix)
    (q : String) (k : Nat) (rs : List SDoc) (hv : st.vectors = some m)
    (h : search_documents_arg st q k fa = .ok rs) :
    search_documents st q k = search_documents_arg st q k argsortAsc ∧
    ∀ r ∈ rs, ∀ j, j < (m.simOf (expanded_query q)).length →
      raw_similarity st q r.row < raw_similarity st q j →
      ∃ r2 ∈ rs, r2.row = j := by
  refine ⟨search_documents_eq_arg st q k, ?_⟩
  intro r hr j hjn hlt
  rcases search_arg_ok_cases fa st m q k rs hv h with rfl | ⟨rs0, hb, rfl⟩
  · exact absurd hr (List.not_mem_nil r)
  · have hr0 : r ∈ rs0 := (List.perm_insertionSort scoreGE rs0).mem_iff.mp hr
    have hspec := build_results_mem _ _ _ _ _ _ hb r hr0
    have hlt' : (m.simOf (expanded_query q)).getD r.row 0 <
        (m.simOf (expanded_query q)).getD j 0 := by
      simpa only [raw_similarity, hv] using hlt
    obtain ⟨hperm, hsorted⟩ := hfa (m.simOf (expanded_query q))
    have hislice : r.row ∈ pyTailSlice k (fa (m.simOf (expanded_query q))) :=
      List.mem_reverse.mp hspec.1
    have hjl : j ∈ fa (m.simOf (expanded_query q)) :=
      hperm.mem_iff.mpr (List.mem_range.mpr hjn)
    have hnr : ¬((m.simOf (expanded_query q)).getD j 0 ≤
        (m.simOf (expanded_query q)).getD r.row 0) := not_le.mpr hlt'
    have hjslice := sorted_suffix_closed (pyTailSlice_suffix k _) hsorted
      hislice hjl hnr
    have hfj : floorThreshold < (m.simOf (expanded_query q)).getD j 0 :=
      lt_trans hspec.2.1 hlt'
    obtain ⟨r2, hr2, hrow2⟩ := build_results_complete _ _ _ _ _ _ hb j
      (List.mem_reverse.mpr hjslice) hfj
    exact ⟨r2, (List.perm_insertionSort scoreGE rs0).mem_iff.mpr hr2, hrow2⟩

/-- C6 amended-claim witness: two documents with distinct similarities 1/2
and 3/4, `k = 2`, at the concrete argsort (which is an admissible one);
the returned row-0 document is outranked by row 1, and row 1 is indeed
returned. -/
theorem c6_selection_by_similarity_up_to_ties_witness :
    ((∀ sims, IsAscArgsort sims (argsortAsc sims)) ∧
     exSt3.vectors = some mat3 ∧
     search_documents_arg exSt3 "q" 2 argsortAsc =
       .ok [⟨docB, mkRat 3 4, 1⟩, ⟨docA, mkRat 1 2, 0⟩]) ∧
    (search_documents exSt3 "q" 2 = search_documents_arg exSt3 "q" 2 argsortAsc ∧
     ∀ r ∈ [(⟨docB, mkRat 3 4, 1⟩ : SDoc), ⟨docA, mkRat 1 2, 0⟩],
       ∀ j, j < (mat3.simOf (expanded_query "q")).length →
         raw_similarity exSt3 "q" r.row < raw_similarity exSt3 "q" j →
         ∃ r2 ∈ [(⟨docB, mkRat 3 4, 1⟩ : SDoc), ⟨docA, mkRat 1 2, 0⟩],
           r2.row = j) :=
  have hs : search_documents_arg exSt3 "q" 2 argsortAsc =
      .ok [⟨docB, mkRat 3 4, 1⟩, ⟨docA, mkRat 1 2, 0⟩] := by decide
  ⟨⟨argsortAsc_isAsc, rfl, hs⟩,
   c6_selection_by_similarity_up_to_ties argsortAsc argsortAsc_isAsc exSt3
     mat3 "q" 2 _ rfl hs⟩

/-- C1: the spec claims `search(query, k)` on an `EMPTY` index returns the
empty sequence and never raises.  The code instead raises: the guard
`not self.vectorizer or not self.vectors.size` evaluates
`self.vectors.size` (the vectorizer object is always truthy), which is an
`AttributeError` when `self.vectors is None` — the state after `__init__`
with no persisted files and after `clear_all_documents` — and the guard
sits before the `try` block, so the exception reaches the caller. -/
theorem c1_search_on_empty_raises (q : String) (k : Nat) (st : VState) :
    search_documents empty_vstate q k = .error .attributeError ∧
    search_documents (clear_all_documents st) q k = .error .attributeError := by
  exact ⟨rfl, rfl⟩

/-- C2: the claim states that after `index(chunks)` the matrix row count
equals the document-list length and that a zero-survivor batch discards the
whole snapshot.  In the code the zero-survivor early return (line 52) only
clears `self.documents`, leaving the previous matrix (and vectorizer and
`is_fitted` flag) in place: indexing one relevant chunk and then a batch
whose only chunk is filtered out leaves an empty document list next to a
one-row matrix. -/
theorem c2_zero_pass_keeps_stale_matrix (ft : List String → TMatrix)
    (hft : ∀ ts, (ft ts).texts = ts) :
    (add_documents ft (add_documents ft empty_vstate [relDoc]) [shortDoc]).documents
        = [] ∧
    ∃ m, (add_documents ft (add_documents ft empty_vstate [relDoc])
        [shortDoc]).vectors = some m ∧ m.texts.length = 1 ∧
      get_document_count
        (add_documents ft (add_documents ft empty_vstate [relDoc]) [shortDoc]) = 0 := by
  have hrel : is_relevant_content relDoc.text = true := by decide
  have hshort : is_relevant_content shortDoc.text = false := by decide
  have h1 : ([relDoc].filter fun d => is_relevant_content d.text) = [relDoc] := by
    simp [List.filter, hrel]
  have h2 : ([shortDoc].filter fun d => is_relevant_content d.text) = [] := by
    simp [List.filter, hshort]
  have hst1 : add_documents ft empty_vstate [relDoc] =
      ⟨[relDoc], some (ft [relDoc.text]), true⟩ := by
    unfold add_documents
    simp [h1, empty_vstate]
  have hst2 : add_documents ft (add_documents ft empty_vstate [relDoc]) [shortDoc] =
      ⟨[], some (ft [relDoc.text]), true⟩ := by
    rw [hst1]
    unfold add_documents
    simp [h2]
  refine ⟨by rw [hst2], ft [relDoc.text], by rw [hst2], ?_, by rw [hst2]; rfl⟩
  rw [hft [relDoc.text]]
  rfl

/-- C2 witness: the hypothesis on `ft` is satisfied by the concrete
row-count-faithful model `trivFit`. -/
theorem c2_zero_pass_keeps_stale_matrix_witness :
    (∀ ts, (trivFit ts).texts = ts) ∧
    ((add_documents trivFit (add_documents trivFit empty_vstate [relDoc])
        [shortDoc]).documents = [] ∧
     ∃ m, (add_documents trivFit (add_documents trivFit empty_vstate [relDoc])
        [shortDoc]).vectors = some m ∧ m.texts.length = 1 ∧
      get_document_count
        (add_documents trivFit (add_documents trivFit empty_vstate [relDoc])
          [shortDoc]) = 0) :=
  ⟨fun _ => rfl, c2_zero_pass_keeps_stale_matrix trivFit (fun _ => rfl)⟩

/-- C5: `search(q, k)` is deterministic against an unchanged snapshot: the
method mutates no store state (its result state equals its input state), a
repeated call returns the identical ordered result, and the result depends
only on the published snapshot (document list and matrix), not on the
remaining state. -/
theorem c5_search_deterministic (st st2 : VState) (q : String) (k : Nat)
    (hd : st2.documents = st.documents) (hv : st2.vectors = st.vectors) :
    (search_documents_st st q k).1 = st ∧
    (search_documents_st ((search_documents_st st q k).1) q k).2 =
      (search_documents_st st q k).2 ∧
    search_documents st2 q k = search_documents st q k := by
  refine ⟨rfl, rfl, ?_⟩
  cases st with
  | mk d v f =>
    cases st2 with
    | mk d2 v2 f2 =>
      simp only at hd hv
      subst hd hv
      rfl

/-- C5 witness at a concrete store state and query. -/
theorem c5_search_deterministic_witness :
    ((VState.mk [] none true).documents = empty_vstate.documents ∧
     (VState.mk [] none true).vectors = empty_vstate.vectors) ∧
    ((search_documents_st empty_vstate "knee" 5).1 = empty_vstate ∧
     (search_documents_st ((search_documents_st empty_vstate "knee" 5).1) "knee" 5).2 =
       (search_documents_st empty_vstate "knee" 5).2 ∧
     search_documents (VState.mk [] none true) "knee" 5 =
       search_documents empty_vstate "knee" 5) :=
  ⟨⟨rfl, rfl⟩, c5_search_deterministic empty_vstate ⟨[], none, true⟩ "knee" 5 rfl rfl⟩

/-- C7: the claim (and the code's own comment, line 139) says an age-like
pattern such as `46M` adds the expansion term `age`.  The age regex
`(\d+)[M|F|m|f]?[-\s]?(?:year|yr)` requires a following `year`/`yr`, so the
query `46M knee surgery Pune 3-month policy` yields exactly the terms
surgery, knee, waiting period, policy duration and location — `age` is
absent. -/
theorem c7_expansion_of_46M_query_lacks_age :
    (∀ x : String,
      x ∈ parse_structured_query "46M knee surgery Pune 3-month policy" ↔
        x = "surgery" ∨ x = "knee" ∨ x = "waiting period" ∨
          x = "policy duration" ∨ x = "location") ∧
    "age" ∉ parse_structured_query "46M knee surgery Pune 3-month policy" := by
  have h : parse_structured_query "46M knee surgery Pune 3-month policy" =
      ["surgery", "knee", "waiting period", "policy duration", "location"] := by
    decide
  rw [h]
  refine ⟨fun x => ?_, by decide⟩
  simp [or_assoc]

/-- C8: the claim says that whichever clause pattern matches, the numeric
locator lands in `clause_number` and the title in `clause_title`.  For a
chunk matching only pattern (3), `<Title> - Clause <number>`, the code
instead stores the (unstripped) title text in `clause_number` and the number
in `clause_title`: pattern (3)'s string contains `Clause`, so the first
branch of the dead `if` runs and assigns `group(1)` — the title — to
`number`, and both branches assign identically anyway. -/
theorem c8_pattern3_swaps_number_and_title :
    extract_clause_info "Room Rent - Clause 5" =
      { title := "5", number := "Room Rent " } := by
  decide

/-- C10: a failing durable-snapshot write during `index(chunks)` is
swallowed: `add_documents` returns normally with the same in-memory state
it produces when the write succeeds, and the resulting document count is
the number of surviving (filter-passing) chunks of the new batch. -/
theorem c10_persistence_failure_swallowed (ft : List String → TMatrix)
    (st : VState) (docs : List VDoc) (diskOk : Bool) :
    add_documents_io ft st docs diskOk = .ok (add_documents ft st docs) ∧
    get_document_count (add_documents ft st docs) =
      (docs.filter fun d => is_relevant_content d.text).length := by
  constructor
  · unfold add_documents_io add_documents save_vectors
    by_cases h : (docs.filter fun d => is_relevant_content d.text).isEmpty
    · simp [h]
    · cases diskOk <;> simp [h]
  · unfold get_document_count
    rw [add_documents_documents]


/-- C9: chunk coverage.  For page text that is non-empty after
normalization (normalized text is stripped, so it neither starts nor ends
with whitespace), `_create_chunks` emits at least one chunk; there is a
partition of the split sentences into consecutive non-empty groups — each
sentence appearing exactly once across the groups, so none is dropped and
the overflow-triggering sentence is never duplicated: it only seeds the
next group — such that the emitted chunk texts are exactly the stripped
rendered groups; and every sentence occurs verbatim inside the text of the
chunk of its group. -/
theorem c9_chunk_coverage (text : String) (page : Nat) (filename : String)
    (h1 : text.data ≠ []) (h2 : headOk text.data = true)
    (h3 : lastOk text.data = true) :
    ∃ gs : List (List (List Char)),
      gs.flatten = splitSentAux [] text.data ∧
      (create_chunks text page filename).map (fun ch => ch.text.data) =
        gs.map (fun g => pyStrip (render g)) ∧
      create_chunks text page filename ≠ [] ∧
      (∀ g ∈ gs, ∀ s ∈ g, ∃ l r, pyStrip (render g) = l ++ s ++ r) ∧
      ∀ s ∈ splitSentAux [] text.data,
        ∃ ch ∈ create_chunks text page filename,
          ∃ l r, ch.text.data = l ++ s ++ r := by
  have hgood : ∀ s ∈ splitSentAux [] text.data, goodSent s :=
    splitSentAux_good [] text.data (fun c hc => by cases hc)
      (fun _ => headOk_spec h2) (lastOk_spec h3)
      (fun hcs => absurd hcs h1) (fun hcs => absurd hcs h1)
  have hssne : splitSentAux [] text.data ≠ [] := splitSentAux_ne_nil [] text.data
  have hnilgood : ∀ s ∈ ([] : List (List Char)), goodSent s := fun s hs => by cases hs
  have hmap : (create_chunks text page filename).map (fun ch => ch.text.data) =
      (chunkGroups [] (splitSentAux [] text.data)).map
        fun g => pyStrip (render g) := by
    have h := chunkLoop_text_eq page filename (splitSentAux [] text.data) [] []
    simpa [create_chunks, render] using h
  refine ⟨chunkGroups [] (splitSentAux [] text.data), ?_, hmap, ?_, ?_, ?_⟩
  · rw [chunkGroups_flatten _ [] hnilgood hgood]
    rfl
  · intro hnil
    have hgne := chunkGroups_ne_nil (splitSentAux [] text.data) [] hnilgood hgood
      (Or.inr hssne)
    rw [hnil] at hmap
    exact hgne (List.map_eq_nil_iff.mp hmap.symm)
  · intro g hg s hs
    obtain ⟨hgne, hggood⟩ := chunkGroups_members _ [] hnilgood hgood g hg
    rcases List.eq_nil_or_concat g with rfl | ⟨g2, sn, rfl⟩
    · exact absurd rfl hgne
    · rw [List.concat_eq_append] at *
      exact strip_render_mem g2 sn hggood s hs
  · intro s hss
    have hsfl : s ∈ (chunkGroups [] (splitSentAux [] text.data)).flatten := by
      rw [chunkGroups_flatten _ [] hnilgood hgood]
      simpa using hss
    rw [List.mem_flatten] at hsfl
    obtain ⟨g, hg, hsg⟩ := hsfl
    obtain ⟨hgne, hggood⟩ := chunkGroups_members _ [] hnilgood hgood g hg
    have hsub : ∃ l r, pyStrip (render g) = l ++ s ++ r := by
      rcases List.eq_nil_or_concat g with rfl | ⟨g2, sn, rfl⟩
      · exact absurd rfl hgne
      · rw [List.concat_eq_append] at *
        exact strip_render_mem g2 sn hggood s hsg
    have hmem : pyStrip (render g) ∈
        (create_chunks text page filename).map fun ch => ch.text.data := by
      rw [hmap]
      exact List.mem_map_of_mem _ hg
    rw [List.mem_map] at hmem
    obtain ⟨ch, hch, hcheq⟩ := hmem
    obtain ⟨l, r, hlr⟩ := hsub
    exact ⟨ch, hch, l, r, by rw [hcheq, hlr]⟩

/-- C9 witness at a concrete two-sentence page text. -/
theorem c9_chunk_coverage_witness :
    ("The policy covers knee surgery. ICU charges apply.".data ≠ [] ∧
     headOk "The policy covers knee surgery. ICU charges apply.".data = true ∧
     lastOk "The policy covers knee surgery. ICU charges apply.".data = true) ∧
    (∃ gs : List (List (List Char)),
      gs.flatten =
        splitSentAux [] "The policy covers knee surgery. ICU charges apply.".data ∧
      (create_chunks "The policy covers knee surgery. ICU charges apply." 1
          "doc.pdf").map (fun ch => ch.text.data) =
        gs.map (fun g => pyStrip (render g)) ∧
      create_chunks "The policy covers knee surgery. ICU charges apply." 1
          "doc.pdf" ≠ [] ∧
      (∀ g ∈ gs, ∀ s ∈ g, ∃ l r, pyStrip (render g) = l ++ s ++ r) ∧
      ∀ s ∈ splitSentAux [] "The policy covers knee surgery. ICU charges apply.".data,
        ∃ ch ∈ create_chunks "The policy covers knee surgery. ICU charges apply." 1
            "doc.pdf",
          ∃ l r, ch.text.data = l ++ s ++ r) :=
  ⟨⟨by decide, by decide, by decide⟩,
   c9_chunk_coverage "The policy covers knee surgery. ICU charges apply." 1
     "doc.pdf" (by decide) (by decide) (by decide)⟩

end InsuranceDoc
